import Mathlib

/-!
Shallow embedding of the capsule-network training notebook of this repository
(data extraction from LIDC scans, capsule network with dynamic routing,
weighted margin loss, training loop with early stopping), together with
proofs and refutations of the specified properties.

Float arithmetic of the original code is embedded over ℚ where only field
operations and comparisons occur, and over ℝ where square roots and
exponentials occur (squashing, softmax).
-/

/- ===================== Definitions ===================== -/

/-- Arithmetic mean of a list of rationals, as computed by a torch mean
reduction: sum divided by the number of elements (the empty mean is 0/0 = 0 in
Lean; live code paths never reduce over an empty container). -/
def listMean (l : List ℚ) : ℚ := l.sum / (l.length : ℚ)

/-- Rectified linear unit over ℚ, embedding F.relu. -/
def reluQ (x : ℚ) : ℚ := max 0 x

/-- Embedding of torch.clamp(v, min=0.0, max=1.0). -/
def clamp01 (v : ℚ) : ℚ := max 0 (min v 1)

/-- Embedding of F.one_hot for a single integer label y with n classes:
the length-n 0/1 indicator row of y. -/
def oneHot (y n : ℕ) : List ℚ := (List.range n).map (fun j => if y = j then 1 else 0)

/-- Embedding of the notebook function margin_loss(y_true, y_pred, m_plus,
m_minus, lambda_, class_weights).  Batches are lists of samples; a prediction
row is the list of per-class scores of one sample.  Mirrors the source line by
line: one-hot encode the labels against y_pred.size(1) classes, clamp the
predictions to [0,1], form the positive and negative squared-hinge matrices,
combine them with factor lambda, then either reduce by the class-weighted
per-sample means or by the global mean. -/
def margin_loss (mPlus mMinus lam : ℚ) (classWeights : Option (List ℚ))
    (yTrue : List ℕ) (yPred : List (List ℚ)) : ℚ :=
  let n := (yPred.headD []).length
  let yTrueOneHot := yTrue.map (fun y => oneHot y n)
  let yp := yPred.map (fun r => r.map clamp01)
  let positiveLoss :=
    List.zipWith (List.zipWith (fun p t => (reluQ (mPlus - p)) ^ 2 * t)) yp yTrueOneHot
  let negativeLoss :=
    List.zipWith (List.zipWith (fun p t => (reluQ (p - mMinus)) ^ 2 * (1 - t))) yp yTrueOneHot
  let loss := List.zipWith (List.zipWith (fun a b => a + lam * b)) positiveLoss negativeLoss
  match classWeights with
  | some w =>
      let sampleWeights := yTrueOneHot.map (fun row => (List.zipWith (fun a b => a * b) row w).sum)
      listMean (List.zipWith (fun r s => listMean r * s) loss sampleWeights)
  | none => listMean loss.flatten

/-- Per-element margin loss exactly as the specification sentence states it:
clamp the prediction to [0,1] first, then a squared hinge below the upper
margin on the true class, plus a lam-down-weighted squared hinge above the
lower margin on each false class. -/
def specElemLoss (mPlus mMinus lam : ℚ) (y j : ℕ) (p : ℚ) : ℚ :=
  if j = y then (reluQ (mPlus - clamp01 p)) ^ 2 else lam * (reluQ (clamp01 p - mMinus)) ^ 2

/-- The margin loss as described by the specification (to be compared with the
source embedding margin_loss): with class weights, the batch mean of each
sample's per-class mean loss scaled by the weight of that sample's true class;
without, the uniform mean of the per-element losses over all classes and
samples. -/
def specMarginLoss (mPlus mMinus lam : ℚ) (classWeights : Option (List ℚ))
    (yTrue : List ℕ) (yPred : List (List ℚ)) : ℚ :=
  let n := (yPred.headD []).length
  match classWeights with
  | some w =>
      listMean (List.zipWith
        (fun y r => w.getD y 0 *
          listMean (r.mapIdx (fun j p => specElemLoss mPlus mMinus lam y j p)))
        yTrue yPred)
  | none =>
      (List.zipWith
        (fun y r => (r.mapIdx (fun j p => specElemLoss mPlus mMinus lam y j p)).sum)
        yTrue yPred).sum / ((yPred.length : ℚ) * (n : ℚ))

/-- One run of the early-stopping epoch loop of the notebook's main():
fuel-indexed recursion over the remaining epochs.  State per iteration:
current epoch index e, best validation loss seen so far (none encodes the
initial float('inf'), which every real loss improves on), the deep-copied
best_model_wts snapshot bw, and the epochs_no_improve counter.  vl e is the
validation loss produced by epoch e and wts e the live model weights at the
end of epoch e.  An improving epoch stores the new best loss, snapshots the
weights and resets the counter; a non-improving epoch increments the counter;
the loop breaks as soon as the counter reaches the patience.  Returns (number
of epochs executed, whether early stopping fired, weights after the final
model.load_state_dict(best_model_wts)). -/
def earlyStopAux {W : Type} (patience : ℕ) (vl : ℕ → ℚ) (wts : ℕ → W) :
    ℕ → ℕ → Option ℚ → W → ℕ → ℕ × Bool × W
  | 0, e, _, bw, _ => (e, false, bw)
  | fuel + 1, e, best, bw, stall =>
    match best with
    | none =>
      if patience ≤ 0 then (e + 1, true, wts e)
      else earlyStopAux patience vl wts fuel (e + 1) (some (vl e)) (wts e) 0
    | some b =>
      if vl e < b then
        if patience ≤ 0 then (e + 1, true, wts e)
        else earlyStopAux patience vl wts fuel (e + 1) (some (vl e)) (wts e) 0
      else
        if patience ≤ stall + 1 then (e + 1, true, bw)
        else earlyStopAux patience vl wts fuel (e + 1) best bw (stall + 1)

/-- The epoch loop as configured: best loss starts at infinity, best weights
start as a copy of the initial weights w0, counter starts at 0. -/
def trainLoop {W : Type} (patience numEpochs : ℕ) (vl : ℕ → ℚ) (wts : ℕ → W)
    (w0 : W) : ℕ × Bool × W :=
  earlyStopAux patience vl wts numEpochs 0 none w0 0

/-- The notebook's configuration: num_epochs = 100, patience = 15. -/
def mainTrainResult {W : Type} (vl : ℕ → ℚ) (wts : ℕ → W) (w0 : W) : ℕ × Bool × W :=
  trainLoop 15 100 vl wts w0

/-- The numeric-stability epsilon 1e-8 used by squash (and by the patch
normalizations). -/
def epsReal : ℝ := 1e-8

/-- Squared Euclidean norm of a capsule vector: (x ** 2).sum(dim=-1). -/
def sqNorm {D : ℕ} (x : Fin D → ℝ) : ℝ := ∑ d, (x d) ^ 2

/-- Embedding of CapsNetWithDecoder.squash applied to one capsule vector:
scale = ‖x‖² / (1 + ‖x‖² + 1e-8), output = scale * x / (sqrt ‖x‖² + 1e-8),
elementwise over the last axis. -/
noncomputable def squash {D : ℕ} (x : Fin D → ℝ) : Fin D → ℝ :=
  fun d => sqNorm x / (1 + sqNorm x + epsReal) * x d / (Real.sqrt (sqNorm x) + epsReal)

/-- F.softmax over the output-capsule axis (dim = 2) of the routing logits:
row b i of the logits is normalized across output capsules j. -/
noncomputable def softmaxRow {O : ℕ} (b : Fin O → ℝ) (j : Fin O) : ℝ :=
  Real.exp (b j) / ∑ k, Real.exp (b k)

/-- One routing aggregation: coefficients c = softmax(b, dim=2),
pre-activation s_j = Σ_i c_ij · u_hat_ij, output v_j = squash(s_j). -/
noncomputable def routeV {I O D : ℕ} (u : Fin I → Fin O → Fin D → ℝ)
    (b : Fin I → Fin O → ℝ) : Fin O → Fin D → ℝ :=
  fun j => squash (fun d => ∑ i, softmaxRow (b i) j * u i j d)

/-- The routing-by-agreement logit update performed on every iteration except
the last: b_ij ← b_ij + Σ_d u_hat_ijd · v_jd. -/
noncomputable def bNext {I O D : ℕ} (u : Fin I → Fin O → Fin D → ℝ)
    (b : Fin I → Fin O → ℝ) : Fin I → Fin O → ℝ :=
  fun i j => b i j + ∑ d, u i j d * routeV u b j d

/-- The routing loop with n remaining logit updates: n = iters − 1 for a run
of iters total iterations (the final iteration computes v without updating). -/
noncomputable def routeIter {I O D : ℕ} (u : Fin I → Fin O → Fin D → ℝ) :
    ℕ → (Fin I → Fin O → ℝ) → (Fin O → Fin D → ℝ)
  | 0, b => routeV u b
  | n + 1, b => routeIter u n (bNext u b)

/-- Embedding of CapsNetWithDecoder.dynamic_routing: routing logits start at
zero for every (input capsule, output capsule) pair, then routing_iters = iters
iterations run, updating the logits on all but the last; the batch axis is
carried pointwise. -/
noncomputable def dynamic_routing {B I O D : ℕ} (iters : ℕ)
    (uhat : Fin B → Fin I → Fin O → Fin D → ℝ) : Fin B → Fin O → Fin D → ℝ :=
  fun bi => routeIter (uhat bi) (iters - 1) (fun _ _ => 0)

/-- Model of an IEEE-double value as far as load_nodule_data's control flow
observes it: a finite rational, NaN, or a signed infinity. -/
inductive FVal
  | fin (q : ℚ)
  | nan
  | inf
  | ninf
deriving DecidableEq

/-- IEEE addition on the modeled values (used by np.mean over centroids). -/
def FVal.add : FVal → FVal → FVal
  | FVal.nan, _ => FVal.nan
  | _, FVal.nan => FVal.nan
  | FVal.inf, FVal.ninf => FVal.nan
  | FVal.ninf, FVal.inf => FVal.nan
  | FVal.inf, _ => FVal.inf
  | _, FVal.inf => FVal.inf
  | FVal.ninf, _ => FVal.ninf
  | _, FVal.ninf => FVal.ninf
  | FVal.fin a, FVal.fin b => FVal.fin (a + b)

/-- Division of a modeled value by a positive count (the np.mean divisor). -/
def FVal.divNat : FVal → ℕ → FVal
  | FVal.fin q, n => FVal.fin (q / (n : ℚ))
  | FVal.nan, _ => FVal.nan
  | FVal.inf, _ => FVal.inf
  | FVal.ninf, _ => FVal.ninf

/-- np.isnan on a modeled value: true exactly on NaN — infinities pass. -/
def FVal.isnan : FVal → Bool
  | FVal.nan => true
  | _ => false

/-- Finiteness of a modeled value (NaN and the infinities are non-finite). -/
def FVal.isFinite : FVal → Bool
  | FVal.fin _ => true
  | _ => false

/-- np.mean of a list of modeled float values. -/
def fmean (l : List FVal) : FVal :=
  (l.foldl FVal.add (FVal.fin 0)).divNat l.length

/-- Round-half-to-even on a rational (np.round), in pure integer arithmetic:
f is the floor, r the nonnegative remainder of num against den. -/
def roundHalfEven (q : ℚ) : ℤ :=
  let f := q.num.fdiv (q.den : ℤ)
  let r := q.num - f * (q.den : ℤ)
  if 2 * r < (q.den : ℤ) then f
  else if (q.den : ℤ) < 2 * r then f + 1
  else if f % 2 = 0 then f else f + 1

/-- INT64_MIN, the value produced by numpy's invalid float→int64 cast. -/
def int64Min : ℤ := -(2 ^ 63)

/-- np.round(coords).astype(int) on one coordinate: finite values round
half-to-even; NaN and both infinities cast to INT64_MIN (the observed numpy
behavior of the invalid cast on mainstream platforms). -/
def FVal.toInt64 : FVal → ℤ
  | FVal.fin q => roundHalfEven q
  | _ => int64Min

/-- Two's-complement wrap-around of signed 64-bit arithmetic (np.int64 ± a
small python int wraps silently). -/
def wrap64 (z : ℤ) : ℤ := (z + 2 ^ 63) % 2 ^ 64 - 2 ^ 63

/-- Python slice-bound normalization for step 1: negative bounds count from
the end, and both bounds clamp into [0, len]. -/
def pyBound (len : ℕ) (a : ℤ) : ℤ :=
  if a < 0 then max 0 ((len : ℤ) + a) else min a (len : ℤ)

/-- The index list selected by the Python slice [a:b] on an axis of the given
length. -/
def sliceRange (len : ℕ) (a b : ℤ) : List ℕ :=
  let s := pyBound len a
  let t := pyBound len b
  (List.range (t - s).toNat).map (fun k => s.toNat + k)

/-- The clipped crop bounds of load_nodule_data on all three axes:
start = max(0, c − size//2), stop = min(shape, c + size//2), with the
np.int64 wrap-around of the additions made explicit. -/
def cropIdx (shape : ℕ × ℕ × ℕ) (x y z : ℤ) (size : ℕ) :
    List ℕ × List ℕ × List ℕ :=
  let s2 : ℤ := ((size / 2 : ℕ) : ℤ)
  (sliceRange shape.1 (max 0 (wrap64 (x - s2))) (min (shape.1 : ℤ) (wrap64 (x + s2))),
   sliceRange shape.2.1 (max 0 (wrap64 (y - s2))) (min (shape.2.1 : ℤ) (wrap64 (y + s2))),
   sliceRange shape.2.2 (max 0 (wrap64 (z - s2))) (min (shape.2.2 : ℤ) (wrap64 (z + s2))))

/-- The numpy shape of the cropped patch volume[xs, ys, zs]: basic slicing of
a 3-D array always yields a 3-entry shape, possibly with zero-length axes. -/
def cropShape (xs ys zs : List ℕ) : List ℕ := [xs.length, ys.length, zs.length]

/-- nodule_patch[:, :, shape[2] // 2]: integer indexing of the central z
slice; raises IndexError when the z axis is empty. -/
def centralSlice (vol : ℕ → ℕ → ℕ → ℚ) (xs ys zs : List ℕ) :
    Except Unit (List (List ℚ)) :=
  match zs.get? (zs.length / 2) with
  | none => Except.error ()
  | some k => Except.ok (xs.map (fun i => ys.map (fun j => vol i j k)))

/-- Model of the external call skimage.transform.resize(m, (32, 32),
anti_aliasing): only the behavior the claims rely on is kept — resizing an
image with a zero-sized axis raises, and otherwise a 32×32 image is produced
deterministically (nearest-neighbor index sampling stands in for the library's
interpolation). -/
def resizeModel (m : List (List ℚ)) : Except Unit (List (List ℚ)) :=
  let h := m.length
  let w := (m.headD []).length
  if h = 0 ∨ w = 0 then Except.error ()
  else Except.ok ((List.range 32).map (fun i =>
    (List.range 32).map (fun j => (m.getD (i * h / 32) []).getD (j * w / 32) 0)))

/-- Deterministic rational stand-in for the float square root inside np.std;
no claim depends on the numeric value of a standardized pixel, only on
standardization being total. -/
def sqrtQ (q : ℚ) : ℚ := (Nat.sqrt q.num.toNat : ℚ) / (Nat.sqrt q.den : ℚ)

/-- Mean over all pixels of a 2-D patch. -/
def matMean (m : List (List ℚ)) : ℚ := listMean m.flatten

/-- The sampler's per-patch standardization:
(x − mean) / (std + 1e-8), with np.std modeled through sqrtQ. -/
def stdNormalize (m : List (List ℚ)) : List (List ℚ) :=
  let mu := matMean m
  let sd := sqrtQ (listMean (m.flatten.map (fun x => (x - mu) ^ 2)))
  m.map (fun row => row.map (fun x => (x - mu) / (sd + 1 / 100000000)))

/-- One pylidc annotation as load_nodule_data reads it: an optional
malignancy rating and a centroid coordinate triple. -/
structure Annot where
  malignancy : Option ℚ
  centroid : FVal × FVal × FVal

/-- One pylidc scan: identity, volume shape and voxel data, and the clustered
annotation groups (nodules). -/
structure Scan where
  id : ℕ
  shape : ℕ × ℕ × ℕ
  vol : ℕ → ℕ → ℕ → ℚ
  nodules : List (List Annot)

/-- The stats dictionary accumulated by load_nodule_data. -/
structure SampleStats where
  total_scans : ℕ
  total_nodules : ℕ
  benign_nodules : ℕ
  malignant_nodules : ℕ
  discarded_nodules : ℕ
deriving DecidableEq

/-- Full sampler state: aligned image/label accumulators, the
processed_scan_ids set, the stats counters, and the position in the stream of
np.random.randint draws. -/
structure SamplerState where
  images : List (List (List ℚ))
  labels : List ℕ
  processed_scan_ids : List ℕ
  stats : SampleStats
  pos : ℕ

/-- Why a nodule was dropped: the three explicit continue-branches, or the
catch-all except handler. -/
inductive DiscardReason
  | noMalig
  | nanCentroid
  | badShape
  | exc
deriving DecidableEq

/-- Result of processing one nodule cluster. -/
inductive NoduleOutcome
  | kept (img : List (List ℚ)) (label : ℕ)
  | discarded (r : DiscardReason)

/-- The malignancy ratings present in a cluster:
[anno.malignancy for anno in nodule if anno.malignancy is not None]. -/
def nodScores (nd : List Annot) : List ℚ := nd.filterMap (fun a => a.malignancy)

/-- np.mean([anno.centroid for anno in nodule], axis=0), componentwise. -/
def nodCoords (nd : List Annot) : FVal × FVal × FVal :=
  (fmean (nd.map (fun a => a.centroid.1)),
   fmean (nd.map (fun a => a.centroid.2.1)),
   fmean (nd.map (fun a => a.centroid.2.2)))

/-- Processing of one nodule cluster, mirroring the try-block of
load_nodule_data: discard when no malignancy rating is present; compute the
mean malignancy and binary label (malignant iff mean ≥ 3); discard when the
averaged centroid contains a NaN; round the centroid to ints, crop with
clipped (wrapped) bounds, discard if the crop's numpy shape has fewer than 3
entries; then take the central z slice, resize to 32×32 and standardize, any
raise landing in the except handler.  The Bool records whether the
np.random.randint size draw was consumed (it happens after the NaN check). -/
def processNodule (shape : ℕ × ℕ × ℕ) (vol : ℕ → ℕ → ℕ → ℚ) (size : ℕ)
    (nd : List Annot) : NoduleOutcome × Bool :=
  let scores := nodScores nd
  if scores.isEmpty then (NoduleOutcome.discarded DiscardReason.noMalig, false)
  else
    let malignancy := listMean scores
    let label := if 3 ≤ malignancy then 1 else 0
    let coords := nodCoords nd
    if coords.1.isnan ∨ coords.2.1.isnan ∨ coords.2.2.isnan then
      (NoduleOutcome.discarded DiscardReason.nanCentroid, false)
    else
      let idx := cropIdx shape coords.1.toInt64 coords.2.1.toInt64 coords.2.2.toInt64 size
      if (cropShape idx.1 idx.2.1 idx.2.2).length < 3 then
        (NoduleOutcome.discarded DiscardReason.badShape, true)
      else
        match centralSlice vol idx.1 idx.2.1 idx.2.2 with
        | Except.error _ => (NoduleOutcome.discarded DiscardReason.exc, true)
        | Except.ok cs =>
          match resizeModel cs with
          | Except.error _ => (NoduleOutcome.discarded DiscardReason.exc, true)
          | Except.ok rs => (NoduleOutcome.kept (stdNormalize rs) label, true)

/-- Folding one nodule into the sampler state: bump total_nodules, process,
then either append the image/label pair and bump the class counter, or bump
discarded_nodules; the random size draw advances the stream position exactly
when the source would have called np.random.randint. -/
def stepNodule (sizes : ℕ → ℕ) (shape : ℕ × ℕ × ℕ) (vol : ℕ → ℕ → ℕ → ℚ)
    (st : SamplerState) (nd : List Annot) : SamplerState :=
  let st1 := { st with stats := { st.stats with
    total_nodules := st.stats.total_nodules + 1 } }
  match processNodule shape vol (sizes st.pos) nd with
  | (NoduleOutcome.kept img label, consumed) =>
    { st1 with
      images := st1.images ++ [img],
      labels := st1.labels ++ [label],
      pos := st1.pos + (if consumed then 1 else 0),
      stats := { st1.stats with
        benign_nodules := st1.stats.benign_nodules + (if label = 0 then 1 else 0),
        malignant_nodules := st1.stats.malignant_nodules + (if label = 1 then 1 else 0) } }
  | (NoduleOutcome.discarded _, consumed) =>
    { st1 with
      pos := st1.pos + (if consumed then 1 else 0),
      stats := { st1.stats with
        discarded_nodules := st1.stats.discarded_nodules + 1 } }

/-- Folding one scan: skip it when its id is in processed_scan_ids — a check
that can never fire, because the source never adds any id to that set — then
bump total_scans and fold the scan's nodule clusters. -/
def stepScan (sizes : ℕ → ℕ) (st : SamplerState) (scan : Scan) : SamplerState :=
  if scan.id ∈ st.processed_scan_ids then st
  else
    let st1 := { st with stats := { st.stats with
      total_scans := st.stats.total_scans + 1 } }
    scan.nodules.foldl (stepNodule sizes scan.shape scan.vol) st1

/-- The initial sampler state: empty accumulators, empty id set, zero stats. -/
def initSamplerState : SamplerState :=
  { images := [], labels := [], processed_scan_ids := [],
    stats := { total_scans := 0, total_nodules := 0, benign_nodules := 0,
               malignant_nodules := 0, discarded_nodules := 0 },
    pos := 0 }

/-- Embedding of load_nodule_data(max_scans, ...): folds the first max_scans
scans; sizes is the stream of np.random.randint(min_nodule_size,
max_nodule_size) draws. -/
def load_nodule_data (maxScans : ℕ) (scans : List Scan) (sizes : ℕ → ℕ) :
    SamplerState :=
  (scans.take maxScans).foldl (stepScan sizes) initSamplerState

/-- A small concrete volume shape used by concrete instantiations. -/
def wShape : ℕ × ℕ × ℕ := (8, 8, 8)

/-- A concrete constant volume. -/
def wVol : ℕ → ℕ → ℕ → ℚ := fun _ _ _ => 0

/-- A concrete stream of crop-size draws, constantly 10. -/
def wSizes : ℕ → ℕ := fun _ => 10

/-- A concrete single-annotation nodule whose centroid has an infinite x
coordinate. -/
def wNodInf : List Annot := [⟨some 5, (FVal.inf, FVal.fin 4, FVal.fin 4)⟩]

/-- A concrete single-annotation nodule whose centroid lies far outside the
volume, so its crop is empty along the x axis. -/
def wNodNeg : List Annot := [⟨some 5, (FVal.fin (-100), FVal.fin 4, FVal.fin 4)⟩]

/-- A scan of the C7 scenario: exactly one nodule cluster, at least one
malignancy rating whose mean determines label l, a finite averaged centroid
that rounds well inside the volume (at least 24 voxels from every face, so
every crop size in [10,50) stays strictly inside), and a realistic
(int64-representable) volume shape. -/
def GoodScan (s : Scan) (l : ℕ) : Prop :=
  ∃ nd, s.nodules = [nd]
    ∧ (nodScores nd).isEmpty = false
    ∧ (if 3 ≤ listMean (nodScores nd) then 1 else 0) = l
    ∧ (∃ qx qy qz, nodCoords nd = (FVal.fin qx, FVal.fin qy, FVal.fin qz)
        ∧ 24 ≤ roundHalfEven qx ∧ roundHalfEven qx + 24 ≤ (s.shape.1 : ℤ)
        ∧ 24 ≤ roundHalfEven qy ∧ roundHalfEven qy + 24 ≤ (s.shape.2.1 : ℤ)
        ∧ 24 ≤ roundHalfEven qz ∧ roundHalfEven qz + 24 ≤ (s.shape.2.2 : ℤ))
    ∧ (s.shape.1 : ℤ) ≤ 2 ^ 62 ∧ (s.shape.2.1 : ℤ) ≤ 2 ^ 62
    ∧ (s.shape.2.2 : ℤ) ≤ 2 ^ 62

/-- A concrete well-formed single-annotation nodule with malignancy rating m,
centered at (32, 32, 32). -/
def wGoodNod (m : ℚ) : List Annot :=
  [⟨some m, (FVal.fin 32, FVal.fin 32, FVal.fin 32)⟩]

/-- A concrete scan with identity i, a 64³ volume and one well-formed nodule
of malignancy m. -/
def wScan (i : ℕ) (m : ℚ) : Scan :=
  ⟨i, (64, 64, 64), fun _ _ _ => 0, [wGoodNod m]⟩

/-- np.min over all pixels of a stored float patch (0 for an empty patch,
which live paths never produce). -/
def matMin (m : List (List ℚ)) : ℚ :=
  match m.flatten with
  | [] => 0
  | x :: t => t.foldl min x

/-- np.max over all pixels. -/
def matMax (m : List (List ℚ)) : ℚ :=
  match m.flatten with
  | [] => 0
  | x :: t => t.foldl max x

/-- One pixel of np.clip(v * 255, 0, 255).astype(np.uint8): clip then truncate
to an unsigned byte. -/
def pixClip255 (q : ℚ) : ℕ := (max 0 (min q 255)).floor.toNat

/-- The LungNoduleDataset.__getitem__ pre-transform step: rescale the stored
float patch to [0,1] by its own min/max (with the 1e-8 guard), scale to 255,
clip and cast to uint8. -/
def toUint8 (m : List (List ℚ)) : List (List ℕ) :=
  m.map (fun row => row.map (fun v =>
    pixClip255 ((v - matMin m) / (matMax m - matMin m + 1 / 100000000) * 255)))

/-- Matrix transpose of a uint8 image (A.Transpose). -/
def transposeM (m : List (List ℕ)) : List (List ℕ) :=
  (List.range (m.headD []).length).map (fun j => m.map (fun row => row.getD j 0))

/-- One counterclockwise quarter rotation, np.rot90-style (used by
A.RandomRotate90). -/
def rot90 (m : List (List ℕ)) : List (List ℕ) := (transposeM m).reverse

/-- A.HorizontalFlip. -/
def hflip (m : List (List ℕ)) : List (List ℕ) := m.map List.reverse

/-- Model of A.Resize(32, 32): the external cv2 resize, deterministic in its
input; nearest-neighbor index sampling stands in for the library's
interpolation. -/
def resize32 (m : List (List ℕ)) : List (List ℕ) :=
  (List.range 32).map (fun i =>
    (List.range 32).map (fun j =>
      (m.getD (i * m.length / 32) []).getD (j * (m.headD []).length / 32) 0))

/-- A.Normalize(mean=(0.5,), std=(0.5,)) with max_pixel_value 255:
(x − 0.5·255) / (0.5·255) per pixel. -/
def normalizeHalf (m : List (List ℕ)) : List (List ℚ) :=
  m.map (fun row => row.map (fun v => ((v : ℚ) - 255 / 2) / (255 / 2)))

/-- The deterministic eval-mode pipeline of LungNoduleDataset (mode ≠ train):
A.Resize(32, 32), A.Normalize, ToTensorV2 (a layout change, identity here).
It reads no random draws. -/
def evalTransform (m : List (List ℕ)) : List (List ℚ) := normalizeHalf (resize32 m)

/-- The randomized train-mode pipeline: every op draws from the ambient
random stream u starting at position pos (one application draw per op, plus
parameter draws).  RandomRotate90, HorizontalFlip and Transpose are modeled
faithfully; ShiftScaleRotate, GaussNoise, RandomBrightnessContrast and
ElasticTransform are external interpolation/noise library calls modeled by
simple stand-ins — only the fact that they consume randomness and perturb
pixels matters to the claims. -/
def trainTransform (u : ℕ → ℚ) (pos : ℕ) (m : List (List ℕ)) : List (List ℚ) :=
  let m1 := if u pos < 1 / 2 then rot90^[(⌊u (pos + 1) * 4⌋).toNat % 4] m else m
  let m2 := if u (pos + 2) < 1 / 2 then hflip m1 else m1
  let m3 := if u (pos + 3) < 1 / 2 then transposeM m2 else m2
  let m4 := if u (pos + 4) < 1 / 2 then (m3.rotateLeft (⌊u (pos + 5)⌋).toNat) else m3
  let m5 := if u (pos + 6) < 3 / 10
    then m4.map (fun r => r.map (fun v => v + (⌊u (pos + 7)⌋).toNat)) else m4
  let m6 := if u (pos + 8) < 3 / 10
    then m5.map (fun r => r.map (fun v => v * 2 + (⌊u (pos + 9)⌋).toNat)) else m5
  let m7 := if u (pos + 10) < 1 / 5 then m6.rotateLeft 1 else m6
  normalizeHalf m7

/-- LungNoduleDataset.__getitem__ (the albumentations branch, as configured):
fetch the stored patch and label at idx, rescale to uint8, then apply the
mode's transform; train mode consumes the ambient random stream u at
position pos, any other mode applies the deterministic eval pipeline. -/
def getItem (mode : String) (images : List (List (List ℚ))) (labels : List ℕ)
    (idx : ℕ) (u : ℕ → ℚ) (pos : ℕ) : List (List ℚ) × ℕ :=
  let img := images.getD idx []
  let imgU := toUint8 img
  (if mode = "train" then trainTransform u pos imgU else evalTransform imgU,
   labels.getD idx 0)

/- ===================== Theorems ===================== -/

theorem listMean_nil : listMean [] = 0 := by simp [listMean]

theorem zipWith_mul_sum_zero (t : List ℚ) (l : List ℚ) (hl : ∀ x ∈ l, x = 0) :
    (List.zipWith (fun a b => a * b) l t).sum = 0 := by
  induction l generalizing t with
  | nil => simp
  | cons a l' ih =>
    cases t with
    | nil => simp
    | cons b t' =>
      simp only [List.zipWith_cons_cons, List.sum_cons]
      rw [hl a (List.mem_cons_self a l'), ih t' (fun x hx => hl x (List.mem_cons_of_mem a hx))]
      ring

theorem oneHot_dot (w : List ℚ) (y n : ℕ) (hy : y < n) (hw : w.length = n) :
    (List.zipWith (fun a b => a * b) (oneHot y n) w).sum = w.getD y 0 := by
  induction w generalizing y n with
  | nil => simp at hw; omega
  | cons b t ih =>
    subst hw
    rw [oneHot, List.length_cons, List.range_succ_eq_map]
    simp only [List.map_cons, List.map_map, List.zipWith_cons_cons, List.sum_cons,
      Function.comp_def]
    cases y with
    | zero =>
      rw [if_pos rfl, zipWith_mul_sum_zero]
      · simp
      · intro x hx
        rcases List.mem_map.mp hx with ⟨j, _, hj⟩
        rw [if_neg (by omega)] at hj
        exact hj.symm
    | succ m =>
      rw [if_neg (show ¬(m + 1 = 0) by omega)]
      have hfn : (fun j => if m + 1 = Nat.succ j then (1 : ℚ) else 0)
          = fun j => if m = j then (1 : ℚ) else 0 := by
        funext j
        simp [Nat.succ_inj]
      rw [hfn]
      have := ih m t.length (by simp only [List.length_cons] at hy; omega) rfl
      rw [oneHot] at this
      rw [this]
      simp

theorem rowLoss_spec (mPlus mMinus lam : ℚ) (y : ℕ) (r : List ℚ) :
    List.zipWith (fun a b => a + lam * b)
      (List.zipWith (fun p t => (reluQ (mPlus - p)) ^ 2 * t) (r.map clamp01) (oneHot y r.length))
      (List.zipWith (fun p t => (reluQ (p - mMinus)) ^ 2 * (1 - t)) (r.map clamp01)
        (oneHot y r.length))
    = r.mapIdx (fun j p => specElemLoss mPlus mMinus lam y j p) := by
  apply List.ext_getElem
  · simp [oneHot]
  · intro i h1 h2
    simp only [List.getElem_zipWith, List.getElem_map, List.getElem_mapIdx, oneHot,
      List.getElem_range, specElemLoss]
    by_cases hy : i = y
    · rw [if_pos hy, if_pos hy.symm]
      ring
    · rw [if_neg hy, if_neg (Ne.symm hy)]
      ring

theorem lossMatrix_spec (mPlus mMinus lam : ℚ) (yTrue : List ℕ) (yPred : List (List ℚ))
    (n : ℕ) (hlen : yTrue.length = yPred.length) (hrow : ∀ r ∈ yPred, r.length = n) :
    List.zipWith (List.zipWith (fun a b => a + lam * b))
      (List.zipWith (List.zipWith (fun p t => (reluQ (mPlus - p)) ^ 2 * t))
        (yPred.map (fun r => r.map clamp01)) (yTrue.map (fun y => oneHot y n)))
      (List.zipWith (List.zipWith (fun p t => (reluQ (p - mMinus)) ^ 2 * (1 - t)))
        (yPred.map (fun r => r.map clamp01)) (yTrue.map (fun y => oneHot y n)))
    = List.zipWith (fun y r => r.mapIdx (fun j p => specElemLoss mPlus mMinus lam y j p))
        yTrue yPred := by
  apply List.ext_getElem
  · simp [hlen]
  · intro i h1 h2
    have hip : i < yPred.length := by
      simp only [List.length_zipWith, List.length_map] at h1
      omega
    have hit : i < yTrue.length := by omega
    simp only [List.getElem_zipWith, List.getElem_map, List.getElem_mapIdx]
    have hr : yPred[i].length = n := hrow _ (List.getElem_mem _)
    have h3 := rowLoss_spec mPlus mMinus lam yTrue[i] yPred[i]
    rw [hr] at h3
    exact h3

theorem zipWith_length_sum (yTrue : List ℕ) (yPred : List (List ℚ)) (n : ℕ)
    (hlen : yTrue.length = yPred.length) (hrow : ∀ r ∈ yPred, r.length = n) :
    (List.zipWith (fun _ r => (r : List ℚ).length) yTrue yPred).sum = yPred.length * n := by
  induction yPred generalizing yTrue with
  | nil => simp
  | cons r t ih =>
    cases yTrue with
    | nil => simp at hlen
    | cons y ys =>
      simp only [List.zipWith_cons_cons, List.sum_cons, List.length_cons]
      rw [hrow r (List.mem_cons_self r t),
        ih ys (by simpa using hlen) (fun s hs => hrow s (List.mem_cons_of_mem r hs))]
      ring

theorem margin_loss_eq_spec (mPlus mMinus lam : ℚ) (cw : Option (List ℚ))
    (yTrue : List ℕ) (yPred : List (List ℚ))
    (hlen : yTrue.length = yPred.length)
    (hrow : ∀ r ∈ yPred, r.length = (yPred.headD []).length)
    (hy : ∀ y ∈ yTrue, y < (yPred.headD []).length)
    (hw : ∀ w ∈ cw, w.length = (yPred.headD []).length) :
    margin_loss mPlus mMinus lam cw yTrue yPred
      = specMarginLoss mPlus mMinus lam cw yTrue yPred := by
  cases cw with
  | some w =>
    simp only [margin_loss, specMarginLoss]
    rw [lossMatrix_spec mPlus mMinus lam yTrue yPred (yPred.headD []).length hlen hrow]
    apply congrArg listMean
    apply List.ext_getElem
    · simp [hlen]
    · intro i h1 h2
      have hip : i < yPred.length := by
        simp only [List.length_zipWith, List.length_map] at h1
        omega
      have hit : i < yTrue.length := by omega
      simp only [List.getElem_zipWith, List.getElem_map]
      rw [oneHot_dot w yTrue[i] (yPred.headD []).length (hy _ (List.getElem_mem _))
        (hw w (by simp)), mul_comm]
  | none =>
    simp only [margin_loss, specMarginLoss]
    rw [lossMatrix_spec mPlus mMinus lam yTrue yPred (yPred.headD []).length hlen hrow]
    rw [listMean]
    rw [List.sum_flatten, List.map_zipWith, List.length_flatten, List.map_zipWith]
    simp only [List.length_mapIdx]
    rw [zipWith_length_sum yTrue yPred (yPred.headD []).length hlen hrow]
    push_cast
    ring

/-- C2: for integer labels, a prediction matrix and optional per-class weights,
margin_loss first clamps predictions elementwise to [0,1], then forms the
per-element loss relu(0.9 − p)² on the true class plus 0.5·relu(p − 0.1)² on
each false class; with weights the result is the batch mean of the per-sample
class-mean losses scaled by the weight at the sample's true class, otherwise
the uniform mean over all classes and samples (specMarginLoss transcribes
exactly that reading of the claim). -/
theorem c2_margin_loss_formula (cw : Option (List ℚ)) (yTrue : List ℕ)
    (yPred : List (List ℚ))
    (hlen : yTrue.length = yPred.length)
    (hrow : ∀ r ∈ yPred, r.length = (yPred.headD []).length)
    (hy : ∀ y ∈ yTrue, y < (yPred.headD []).length)
    (hw : ∀ w ∈ cw, w.length = (yPred.headD []).length) :
    margin_loss (9/10) (1/10) (1/2) cw yTrue yPred
      = specMarginLoss (9/10) (1/10) (1/2) cw yTrue yPred :=
  margin_loss_eq_spec (9/10) (1/10) (1/2) cw yTrue yPred hlen hrow hy hw

/-- Witness for C2 at a concrete weighted batch of two samples and two
classes. -/
theorem c2_margin_loss_formula_witness :
    margin_loss (9/10) (1/10) (1/2) (some [2, 3]) [0, 1] [[1/2, 0], [0, 1]]
      = specMarginLoss (9/10) (1/10) (1/2) (some [2, 3]) [0, 1] [[1/2, 0], [0, 1]] :=
  c2_margin_loss_formula (some [2, 3]) [0, 1] [[1/2, 0], [0, 1]]
    (by decide) (by decide) (by decide)
    (by intro w hwm
        simp only [Option.mem_def, Option.some_inj] at hwm
        subst hwm
        decide)

theorem listMean_mul_left (c : ℚ) (l : List ℚ) :
    listMean (l.map (fun x => c * x)) = c * listMean l := by
  simp only [listMean, List.length_map]
  rw [show (fun x => c * x) = fun x => c * id x from rfl, List.sum_map_mul_left, List.map_id]
  ring

theorem weighted_scale (c : ℚ) (L OH : List (List ℚ)) :
    listMean (List.zipWith (fun r s => listMean r * s) L
      (OH.map (fun row => (List.zipWith (fun a b => a * b) row [c, c]).sum)))
    = c * listMean (List.zipWith (fun r s => listMean r * s) L
      (OH.map (fun row => (List.zipWith (fun a b => a * b) row [1, 1]).sum))) := by
  have hrow : (fun row : List ℚ => (List.zipWith (fun a b => a * b) row [c, c]).sum)
      = fun row => c * (List.zipWith (fun a b => a * b) row [1, 1]).sum := by
    funext row
    match row with
    | [] => simp
    | [a] =>
      simp only [List.zipWith_cons_cons, List.zipWith_nil_left, List.sum_cons, List.sum_nil]
      ring
    | a :: b :: t =>
      simp only [List.zipWith_cons_cons, List.zipWith_nil_right, List.sum_cons, List.sum_nil]
      ring
  rw [hrow, ← listMean_mul_left c]
  apply congrArg listMean
  rw [show (fun row : List ℚ => c * (List.zipWith (fun a b => a * b) row [1, 1]).sum)
      = (fun x => c * x) ∘ (fun row : List ℚ => (List.zipWith (fun a b => a * b) row [1, 1]).sum)
      from rfl, ← List.map_map, List.zipWith_map_right, List.map_zipWith]
  have hfn : (fun (r : List ℚ) (s : ℚ) => listMean r * (c * s))
      = fun (r : List ℚ) (s : ℚ) => c * (listMean r * s) := by
    funext r s
    ring
  rw [hfn]

/-- C8 counterexample: a batch with two benign and two malignant samples, all
predictions zero; with the uniform inverse-frequency weights [1/2, 1/2] the
loss is half of the all-ones-weight loss, not equal to it. -/
theorem c8_counterexample :
    margin_loss (9/10) (1/10) (1/2) (some [1/2, 1/2]) [0, 0, 1, 1]
        [[0, 0], [0, 0], [0, 0], [0, 0]]
      ≠ margin_loss (9/10) (1/10) (1/2) (some [1, 1]) [0, 0, 1, 1]
        [[0, 0], [0, 0], [0, 0], [0, 0]] := by
  norm_num [margin_loss, listMean, oneHot, reluQ, clamp01, List.range_succ]

/-- C8 amended: with uniform class weights [c, c] (the inverse-frequency
weights of a dataset with equal benign/malignant counts n have c = 1/n) the
weighted margin loss equals c times the all-ones-weight loss; it equals the
all-ones loss itself only when c = 1 or the loss vanishes. -/
theorem c8_uniform_weights_scale (c : ℚ) (yTrue : List ℕ) (yPred : List (List ℚ)) :
    margin_loss (9/10) (1/10) (1/2) (some [c, c]) yTrue yPred
      = c * margin_loss (9/10) (1/10) (1/2) (some [1, 1]) yTrue yPred := by
  simp only [margin_loss]
  exact weighted_scale c _ _

theorem earlyStopAux_stall {W : Type} (patience : ℕ) (vl : ℕ → ℚ) (wts : ℕ → W)
    (bl : ℚ) (bw : W) (k : ℕ) :
    ∀ (fuel e stall : ℕ), 1 ≤ k → stall + k = patience → k ≤ fuel →
      (∀ i < k, bl ≤ vl (e + i)) →
      earlyStopAux patience vl wts fuel e (some bl) bw stall = (e + k, true, bw) := by
  induction k with
  | zero =>
    intro fuel e stall h1 _ _ _
    exact absurd h1 (by omega)
  | succ m ih =>
    intro fuel e stall _ h2 h3 h4
    obtain ⟨f, rfl⟩ : ∃ f, fuel = f + 1 := ⟨fuel - 1, by omega⟩
    simp only [earlyStopAux]
    have hni : ¬ (vl e < bl) := not_lt.mpr (by have := h4 0 (by omega); simpa using this)
    rw [if_neg hni]
    cases m with
    | zero =>
      rw [if_pos (by omega)]
    | succ m' =>
      rw [if_neg (by omega)]
      rw [ih f (e + 1) (stall + 1) (by omega) (by omega) (by omega)
        (fun i hi => by
          have h := h4 (i + 1) (by omega)
          rw [show e + 1 + i = e + (i + 1) by omega]
          exact h)]
      have he : e + 1 + (m' + 1) = e + (m' + 1 + 1) := by omega
      rw [he]

theorem earlyStopAux_first {W : Type} (patience : ℕ) (hp : 1 ≤ patience)
    (vl : ℕ → ℚ) (wts : ℕ → W) (fuel e : ℕ) (bw : W) (stall : ℕ) (hf : 1 ≤ fuel) :
    earlyStopAux patience vl wts fuel e none bw stall
      = earlyStopAux patience vl wts (fuel - 1) (e + 1) (some (vl e)) (wts e) 0 := by
  obtain ⟨f, rfl⟩ : ∃ f, fuel = f + 1 := ⟨fuel - 1, by omega⟩
  simp only [earlyStopAux]
  rw [if_neg (by omega)]
  simp

theorem earlyStopAux_improve {W : Type} (patience : ℕ) (hp : 1 ≤ patience)
    (vl : ℕ → ℚ) (wts : ℕ → W) (j : ℕ) :
    ∀ (fuel e : ℕ) (b : ℚ) (bw : W) (stall : ℕ), j + 1 ≤ fuel → vl e < b →
      (∀ i < j, vl (e + i + 1) < vl (e + i)) →
      earlyStopAux patience vl wts fuel e (some b) bw stall
        = earlyStopAux patience vl wts (fuel - (j + 1)) (e + j + 1)
            (some (vl (e + j))) (wts (e + j)) 0 := by
  induction j with
  | zero =>
    intro fuel e b bw stall hf himp _
    obtain ⟨f, rfl⟩ : ∃ f, fuel = f + 1 := ⟨fuel - 1, by omega⟩
    simp only [earlyStopAux]
    rw [if_pos himp, if_neg (by omega)]
    simp
  | succ m ih =>
    intro fuel e b bw stall hf himp hchain
    obtain ⟨f, rfl⟩ : ∃ f, fuel = f + 1 := ⟨fuel - 1, by omega⟩
    simp only [earlyStopAux]
    rw [if_pos himp, if_neg (by omega)]
    rw [ih f (e + 1) (vl e) (wts e) 0 (by omega)
      (by have := hchain 0 (by omega); simpa using this)
      (fun i hi => by
        have h := hchain (i + 1) (by omega)
        rw [show e + 1 + i = e + (i + 1) by omega]
        exact h)]
    have h1 : f + 1 - (m + 1 + 1) = f - (m + 1) := by omega
    have h2 : e + (m + 1) = e + 1 + m := by omega
    rw [h1, h2]

/-- C1: early stopping.  For every validation-loss sequence that improves at
each epoch up to epoch j (the last improving epoch) and then fails to improve
on the best loss vl j for the next 15 (= patience) consecutive epochs, with
j + 15 < 100 (= the configured maximum), the training loop halts exactly at
epoch j + 15 — i.e. after j + 16 executed epochs, strictly before 100 when
j + 16 < 100 — with the early-stop flag set, and the returned final weights
are the snapshot wts j taken at the last improving epoch, not the live
weights wts (j + 15) of the last completed epoch. -/
theorem c1_early_stopping {W : Type} (vl : ℕ → ℚ) (wts : ℕ → W) (w0 : W) (j : ℕ)
    (hj : j + 15 < 100)
    (hdec : ∀ i < j, vl (i + 1) < vl i)
    (hstall : ∀ i < 15, vl j ≤ vl (j + 1 + i)) :
    mainTrainResult vl wts w0 = (j + 16, true, wts j) := by
  unfold mainTrainResult trainLoop
  rw [earlyStopAux_first 15 (by omega) vl wts 100 0 w0 0 (by omega)]
  cases j with
  | zero =>
    rw [earlyStopAux_stall 15 vl wts (vl 0) (wts 0) 15 (100 - 1) (0 + 1) 0 (by omega)
      (by omega) (by omega)
      (fun i hi => by
        have h := hstall i hi
        exact h)]
  | succ m =>
    rw [earlyStopAux_improve 15 (by omega) vl wts m (100 - 1) (0 + 1) (vl 0) (wts 0) 0
      (by omega)
      (by have := hdec 0 (by omega); simpa using this)
      (fun i hi => by
        have h := hdec (i + 1) (by omega)
        rw [show 0 + 1 + i = i + 1 by omega]
        exact h)]
    rw [show 0 + 1 + m = m + 1 by omega]
    rw [earlyStopAux_stall 15 vl wts (vl (m + 1)) (wts (m + 1)) 15
      (100 - 1 - (m + 1)) (m + 1 + 1) 0 (by omega) (by omega) (by omega)
      (fun i hi => by
        have h := hstall i hi
        exact h)]

/-- Witness for C1: a constant loss sequence improves only at epoch 0 and then
stalls for 15 epochs, so training halts after 16 epochs with the epoch-0
snapshot. -/
theorem c1_early_stopping_witness :
    mainTrainResult (fun _ => (1 : ℚ)) (fun e : ℕ => e) 42 = (16, true, 0) :=
  c1_early_stopping (fun _ => (1 : ℚ)) (fun e : ℕ => e) 42 0 (by omega)
    (fun i hi => absurd hi (Nat.not_lt_zero i)) (fun i _ => le_refl 1)

theorem sqNorm_nonneg {D : ℕ} (x : Fin D → ℝ) : 0 ≤ sqNorm x :=
  Finset.sum_nonneg (fun _ _ => sq_nonneg _)

theorem epsReal_pos : (0 : ℝ) < epsReal := by norm_num [epsReal]

theorem sqNorm_smul {D : ℕ} (c : ℝ) (x : Fin D → ℝ) :
    sqNorm (fun d => c * x d) = c ^ 2 * sqNorm x := by
  unfold sqNorm
  rw [Finset.mul_sum]
  exact Finset.sum_congr rfl (fun d _ => by ring)

/-- C3: the squashing function returns a non-negative scalar multiple of its
input (hence collinear with it), its output's Euclidean norm is strictly below
1 for every input, and the zero vector is mapped to the zero vector. -/
theorem c3_squash_collinear_bounded {D : ℕ} (x : Fin D → ℝ) :
    (∃ c : ℝ, 0 ≤ c ∧ squash x = fun d => c * x d)
    ∧ Real.sqrt (sqNorm (squash x)) < 1
    ∧ squash (fun _ : Fin D => (0 : ℝ)) = fun _ => 0 := by
  have hn2 : 0 ≤ sqNorm x := sqNorm_nonneg x
  have hs : 0 ≤ Real.sqrt (sqNorm x) := Real.sqrt_nonneg _
  have he : (0 : ℝ) < epsReal := epsReal_pos
  have hd1 : 0 < 1 + sqNorm x + epsReal := by linarith
  have hd2 : 0 < Real.sqrt (sqNorm x) + epsReal := by linarith
  have hc : 0 ≤ sqNorm x / ((1 + sqNorm x + epsReal) * (Real.sqrt (sqNorm x) + epsReal)) :=
    div_nonneg hn2 (le_of_lt (mul_pos hd1 hd2))
  have hform : squash x
      = fun d => sqNorm x / ((1 + sqNorm x + epsReal) * (Real.sqrt (sqNorm x) + epsReal)) * x d := by
    funext d
    unfold squash
    field_simp
  refine ⟨⟨_, hc, hform⟩, ?_, ?_⟩
  · rw [hform, sqNorm_smul, Real.sqrt_mul (sq_nonneg _), Real.sqrt_sq hc]
    rw [div_mul_eq_mul_div, div_lt_one (mul_pos hd1 hd2)]
    have h2 : Real.sqrt (sqNorm x) ^ 2 = sqNorm x := Real.sq_sqrt hn2
    nlinarith [mul_nonneg hn2 (le_of_lt he), mul_nonneg (le_of_lt he) hs,
      mul_nonneg hn2 hs, sq_nonneg epsReal]
  · funext d
    unfold squash
    have hz : sqNorm (fun _ : Fin D => (0 : ℝ)) = 0 := by
      unfold sqNorm
      simp
    rw [hz]
    simp

theorem routeV_perm {I O D : ℕ} (σ : Equiv.Perm (Fin I))
    (u : Fin I → Fin O → Fin D → ℝ) (b : Fin I → Fin O → ℝ) :
    routeV (fun i => u (σ i)) (fun i => b (σ i)) = routeV u b := by
  funext j
  exact congrArg squash
    (funext (fun d => Equiv.sum_comp σ (fun i => softmaxRow (b i) j * u i j d)))

theorem bNext_perm {I O D : ℕ} (σ : Equiv.Perm (Fin I))
    (u : Fin I → Fin O → Fin D → ℝ) (b : Fin I → Fin O → ℝ) :
    bNext (fun i => u (σ i)) (fun i => b (σ i)) = fun i => bNext u b (σ i) := by
  funext i j
  unfold bNext
  rw [routeV_perm σ u b]

theorem routeIter_perm {I O D : ℕ} (σ : Equiv.Perm (Fin I))
    (u : Fin I → Fin O → Fin D → ℝ) (n : ℕ) :
    ∀ b : Fin I → Fin O → ℝ,
      routeIter (fun i => u (σ i)) n (fun i => b (σ i)) = routeIter u n b := by
  induction n with
  | zero =>
    intro b
    exact routeV_perm σ u b
  | succ m ih =>
    intro b
    show routeIter (fun i => u (σ i)) m (bNext (fun i => u (σ i)) (fun i => b (σ i)))
      = routeIter u m (bNext u b)
    rw [bNext_perm σ u b]
    exact ih (bNext u b)

/-- C4: with routing logits initialized to zero, for every iteration count
iters + 1 ≥ 1 the output of dynamic routing on a permutation of the input
capsules equals the output on the original input capsules, for every batch
slot. -/
theorem c4_routing_perm_invariant {B I O D : ℕ} (iters : ℕ) (σ : Equiv.Perm (Fin I))
    (uhat : Fin B → Fin I → Fin O → Fin D → ℝ) :
    dynamic_routing (iters + 1) (fun bi i => uhat bi (σ i))
      = dynamic_routing (iters + 1) uhat := by
  funext bi
  unfold dynamic_routing
  exact routeIter_perm σ (uhat bi) (iters + 1 - 1) (fun _ _ => 0)

theorem stepNodule_scan_fields (sizes : ℕ → ℕ) (shape : ℕ × ℕ × ℕ)
    (vol : ℕ → ℕ → ℕ → ℚ) (st : SamplerState) (nd : List Annot) :
    (stepNodule sizes shape vol st nd).stats.total_scans = st.stats.total_scans
    ∧ (stepNodule sizes shape vol st nd).processed_scan_ids = st.processed_scan_ids
    ∧ (stepNodule sizes shape vol st nd).stats.total_nodules
        = st.stats.total_nodules + 1 := by
  unfold stepNodule
  cases hpn : processNodule shape vol (sizes st.pos) nd with
  | mk o c => cases o <;> simp [hpn]

theorem foldNodules_scan_fields (sizes : ℕ → ℕ) (shape : ℕ × ℕ × ℕ)
    (vol : ℕ → ℕ → ℕ → ℚ) (nds : List (List Annot)) :
    ∀ st : SamplerState,
      (nds.foldl (stepNodule sizes shape vol) st).stats.total_scans
          = st.stats.total_scans
      ∧ (nds.foldl (stepNodule sizes shape vol) st).processed_scan_ids
          = st.processed_scan_ids
      ∧ (nds.foldl (stepNodule sizes shape vol) st).stats.total_nodules
          = st.stats.total_nodules + nds.length := by
  induction nds with
  | nil => intro st; exact ⟨rfl, rfl, by simp⟩
  | cons nd t ih =>
    intro st
    rw [List.foldl_cons]
    obtain ⟨h1, h2, h3⟩ := ih (stepNodule sizes shape vol st nd)
    obtain ⟨g1, g2, g3⟩ := stepNodule_scan_fields sizes shape vol st nd
    refine ⟨h1.trans g1, h2.trans g2, ?_⟩
    rw [h3, g3]
    simp only [List.length_cons]
    omega

theorem stepScan_not_mem (sizes : ℕ → ℕ) (st : SamplerState) (s : Scan)
    (h : s.id ∉ st.processed_scan_ids) :
    (stepScan sizes st s).stats.total_scans = st.stats.total_scans + 1
    ∧ (stepScan sizes st s).processed_scan_ids = st.processed_scan_ids
    ∧ (stepScan sizes st s).stats.total_nodules
        = st.stats.total_nodules + s.nodules.length := by
  unfold stepScan
  rw [if_neg h]
  obtain ⟨h1, h2, h3⟩ := foldNodules_scan_fields sizes s.shape s.vol s.nodules
    { st with stats := { st.stats with total_scans := st.stats.total_scans + 1 } }
  exact ⟨h1, h2, h3⟩

/-- C5 (refuting theorem): the processed_scan_ids set is created and checked
but never populated, so a scan whose id equals that of an already-processed
scan is processed again in full — for any scan s, the duplicated input
[s, s] yields total_scans = 2 and total_nodules = 2·|s.nodules|, where the
claim demands the duplicate be skipped with no counter increments. -/
theorem c5_duplicate_scan_processed_again (s : Scan) (sizes : ℕ → ℕ) :
    (load_nodule_data 400 [s, s] sizes).stats.total_scans = 2
    ∧ (load_nodule_data 400 [s, s] sizes).stats.total_nodules
        = 2 * s.nodules.length := by
  unfold load_nodule_data
  rw [List.take_of_length_le (by simp), List.foldl_cons, List.foldl_cons, List.foldl_nil]
  obtain ⟨a1, a2, a3⟩ := stepScan_not_mem sizes initSamplerState s
    (by simp [initSamplerState])
  obtain ⟨b1, b2, b3⟩ := stepScan_not_mem sizes (stepScan sizes initSamplerState s) s
    (by rw [a2]; simp [initSamplerState])
  refine ⟨?_, ?_⟩
  · rw [b1, a1]
    simp [initSamplerState]
  · rw [b3, a3]
    simp [initSamplerState]
    omega

theorem wrap64_id (z : ℤ) (h1 : -(2 ^ 63) ≤ z) (h2 : z < 2 ^ 63) : wrap64 z = z := by
  unfold wrap64
  rw [Int.emod_eq_of_lt (by omega) (by omega)]
  ring

theorem pyBound_nonneg (len : ℕ) (a : ℤ) (ha : 0 ≤ a) : 0 ≤ pyBound len a := by
  unfold pyBound
  rw [if_neg (by omega)]
  exact le_min ha (by positivity)

theorem sliceRange_int64Min (len : ℕ) (s2 : ℤ) (h0 : 0 ≤ s2) (hs : s2 < 2 ^ 62)
    (hlen : (len : ℤ) < 2 ^ 62) :
    sliceRange len (max 0 (wrap64 (int64Min - s2))) (min (len : ℤ) (wrap64 (int64Min + s2)))
      = [] := by
  have hw : wrap64 (int64Min + s2) = int64Min + s2 :=
    wrap64_id _ (by unfold int64Min; omega) (by unfold int64Min; omega)
  have ht : pyBound len (min (len : ℤ) (wrap64 (int64Min + s2))) = 0 := by
    rw [hw, min_eq_right (by unfold int64Min; omega)]
    unfold pyBound
    rw [if_pos (by unfold int64Min; omega)]
    exact max_eq_left (by unfold int64Min; omega)
  have hs' : 0 ≤ pyBound len (max 0 (wrap64 (int64Min - s2))) :=
    pyBound_nonneg len _ (le_max_left 0 _)
  simp only [sliceRange]
  rw [ht]
  have hz : ((0 : ℤ) - pyBound len (max 0 (wrap64 (int64Min - s2)))).toNat = 0 := by omega
  rw [hz]
  simp

theorem resizeModel_empty_rows (l : List ℕ) (f : ℕ → List ℚ)
    (hf : ∀ i, f i = []) :
    resizeModel (l.map f) = Except.error () := by
  cases l with
  | nil => simp [resizeModel]
  | cons a t =>
    unfold resizeModel
    rw [if_pos]
    right
    simp [hf]

theorem centralSlice_resize_fails (vol : ℕ → ℕ → ℕ → ℚ) (xs ys zs : List ℕ)
    (h : xs = [] ∨ ys = [] ∨ zs = []) :
    ∀ cs, centralSlice vol xs ys zs = Except.ok cs → resizeModel cs = Except.error () := by
  intro cs hcs
  rcases h with hx | hy | hz
  · subst hx
    unfold centralSlice at hcs
    split at hcs
    · exact absurd hcs (by simp)
    · simp only [List.map_nil] at hcs
      rw [(Except.ok.inj hcs).symm]
      simp [resizeModel]
  · subst hy
    unfold centralSlice at hcs
    split at hcs
    · exact absurd hcs (by simp)
    · rw [(Except.ok.inj hcs).symm]
      exact resizeModel_empty_rows xs _ (fun i => by simp)
  · subst hz
    unfold centralSlice at hcs
    simp at hcs

theorem processNodule_empty_axis (shape : ℕ × ℕ × ℕ) (vol : ℕ → ℕ → ℕ → ℚ)
    (size : ℕ) (nd : List Annot)
    (hsc : (nodScores nd).isEmpty = false)
    (hn1 : (nodCoords nd).1.isnan = false)
    (hn2 : (nodCoords nd).2.1.isnan = false)
    (hn3 : (nodCoords nd).2.2.isnan = false)
    (hempty :
      (cropIdx shape (nodCoords nd).1.toInt64 (nodCoords nd).2.1.toInt64
        (nodCoords nd).2.2.toInt64 size).1 = []
      ∨ (cropIdx shape (nodCoords nd).1.toInt64 (nodCoords nd).2.1.toInt64
        (nodCoords nd).2.2.toInt64 size).2.1 = []
      ∨ (cropIdx shape (nodCoords nd).1.toInt64 (nodCoords nd).2.1.toInt64
        (nodCoords nd).2.2.toInt64 size).2.2 = []) :
    processNodule shape vol size nd
      = (NoduleOutcome.discarded DiscardReason.exc, true) := by
  unfold processNodule
  rw [if_neg (by simp [hsc]), if_neg (by simp [hn1, hn2, hn3]),
    if_neg (by simp [cropShape])]
  cases hcs : centralSlice vol
      (cropIdx shape (nodCoords nd).1.toInt64 (nodCoords nd).2.1.toInt64
        (nodCoords nd).2.2.toInt64 size).1
      (cropIdx shape (nodCoords nd).1.toInt64 (nodCoords nd).2.1.toInt64
        (nodCoords nd).2.2.toInt64 size).2.1
      (cropIdx shape (nodCoords nd).1.toInt64 (nodCoords nd).2.1.toInt64
        (nodCoords nd).2.2.toInt64 size).2.2 with
  | error e => rfl
  | ok cs =>
    have hres := centralSlice_resize_fails vol _ _ _ hempty cs hcs
    simp [hres]

theorem FVal_nonfinite_toInt64 (v : FVal) (h1 : v.isFinite = false)
    (h2 : v.isnan = false) : v.toInt64 = int64Min := by
  cases v <;> simp_all [FVal.isFinite, FVal.isnan, FVal.toInt64]

theorem halfSize_bound (size : ℕ) (hsz : (size : ℤ) < 2 ^ 62) :
    0 ≤ ((size / 2 : ℕ) : ℤ) ∧ ((size / 2 : ℕ) : ℤ) < 2 ^ 62 := by
  have h := Nat.div_le_self size 2
  constructor
  · positivity
  · calc ((size / 2 : ℕ) : ℤ) ≤ (size : ℤ) := by exact_mod_cast h
      _ < 2 ^ 62 := hsz

theorem processNodule_nonfinite (shape : ℕ × ℕ × ℕ) (vol : ℕ → ℕ → ℕ → ℚ)
    (size : ℕ) (nd : List Annot)
    (hsh : (shape.1 : ℤ) < 2 ^ 62 ∧ (shape.2.1 : ℤ) < 2 ^ 62 ∧ (shape.2.2 : ℤ) < 2 ^ 62)
    (hsz : (size : ℤ) < 2 ^ 62)
    (hnf : (nodCoords nd).1.isFinite = false ∨ (nodCoords nd).2.1.isFinite = false
      ∨ (nodCoords nd).2.2.isFinite = false) :
    ∃ r c, processNodule shape vol size nd = (NoduleOutcome.discarded r, c) := by
  obtain ⟨hs0, hs1⟩ := halfSize_bound size hsz
  by_cases hsc : (nodScores nd).isEmpty
  · exact ⟨DiscardReason.noMalig, false, by unfold processNodule; rw [if_pos hsc]⟩
  · have hsc' : (nodScores nd).isEmpty = false := by simpa using hsc
    by_cases hn : ((nodCoords nd).1.isnan ∨ (nodCoords nd).2.1.isnan
        ∨ (nodCoords nd).2.2.isnan)
    · exact ⟨DiscardReason.nanCentroid, false, by
        unfold processNodule
        rw [if_neg (by simp [hsc']), if_pos hn]⟩
    · have hn1 : (nodCoords nd).1.isnan = false := by simpa using fun h => hn (Or.inl h)
      have hn2 : (nodCoords nd).2.1.isnan = false := by
        simpa using fun h => hn (Or.inr (Or.inl h))
      have hn3 : (nodCoords nd).2.2.isnan = false := by
        simpa using fun h => hn (Or.inr (Or.inr h))
      refine ⟨DiscardReason.exc, true,
        processNodule_empty_axis shape vol size nd hsc' hn1 hn2 hn3 ?_⟩
      rcases hnf with hf | hf | hf
      · left
        rw [FVal_nonfinite_toInt64 _ hf hn1]
        simp only [cropIdx]
        exact sliceRange_int64Min shape.1 _ hs0 hs1 hsh.1
      · right
        left
        rw [FVal_nonfinite_toInt64 _ hf hn2]
        simp only [cropIdx]
        exact sliceRange_int64Min shape.2.1 _ hs0 hs1 hsh.2.1
      · right
        right
        rw [FVal_nonfinite_toInt64 _ hf hn3]
        simp only [cropIdx]
        exact sliceRange_int64Min shape.2.2 _ hs0 hs1 hsh.2.2

/-- C6: a nodule cluster whose averaged centroid contains a non-finite
coordinate (NaN or either infinity, under volume shapes and crop sizes within
the int64-representable range of a real numpy array) is discarded by the
sampler: processing yields a discard outcome — via the NaN check for NaN, or
via the caught IndexError/resize failure on the empty crop an infinite
coordinate produces — and the nodule contributes no image, no label, no class
counter, exactly one discarded-counter increment, and no exception escapes
(every outcome of processNodule is a normal value). -/
theorem c6_nonfinite_centroid_discarded (shape : ℕ × ℕ × ℕ)
    (vol : ℕ → ℕ → ℕ → ℚ) (sizes : ℕ → ℕ) (st : SamplerState) (nd : List Annot)
    (hsh : (shape.1 : ℤ) < 2 ^ 62 ∧ (shape.2.1 : ℤ) < 2 ^ 62 ∧ (shape.2.2 : ℤ) < 2 ^ 62)
    (hsz : ((sizes st.pos : ℕ) : ℤ) < 2 ^ 62)
    (hnf : (nodCoords nd).1.isFinite = false ∨ (nodCoords nd).2.1.isFinite = false
      ∨ (nodCoords nd).2.2.isFinite = false) :
    (∃ r c, processNodule shape vol (sizes st.pos) nd = (NoduleOutcome.discarded r, c))
    ∧ (stepNodule sizes shape vol st nd).images = st.images
    ∧ (stepNodule sizes shape vol st nd).labels = st.labels
    ∧ (stepNodule sizes shape vol st nd).stats.discarded_nodules
        = st.stats.discarded_nodules + 1
    ∧ (stepNodule sizes shape vol st nd).stats.benign_nodules = st.stats.benign_nodules
    ∧ (stepNodule sizes shape vol st nd).stats.malignant_nodules
        = st.stats.malignant_nodules := by
  obtain ⟨r, c, hpr⟩ := processNodule_nonfinite shape vol (sizes st.pos) nd hsh hsz hnf
  refine ⟨⟨r, c, hpr⟩, ?_, ?_, ?_, ?_, ?_⟩ <;> simp [stepNodule, hpr]

theorem roundHalfEven_intCast (m : ℤ) : roundHalfEven (m : ℚ) = m := by
  simp [roundHalfEven, Rat.num_intCast, Rat.den_intCast]

/-- Witness for C6 at a concrete nodule with an infinite x coordinate. -/
theorem c6_nonfinite_centroid_discarded_witness :
    ((nodCoords wNodInf).1.isFinite = false ∨ (nodCoords wNodInf).2.1.isFinite = false
      ∨ (nodCoords wNodInf).2.2.isFinite = false)
    ∧ ((∃ r c, processNodule wShape wVol (wSizes initSamplerState.pos) wNodInf
          = (NoduleOutcome.discarded r, c))
      ∧ (stepNodule wSizes wShape wVol initSamplerState wNodInf).images
          = initSamplerState.images
      ∧ (stepNodule wSizes wShape wVol initSamplerState wNodInf).labels
          = initSamplerState.labels
      ∧ (stepNodule wSizes wShape wVol initSamplerState wNodInf).stats.discarded_nodules
          = initSamplerState.stats.discarded_nodules + 1
      ∧ (stepNodule wSizes wShape wVol initSamplerState wNodInf).stats.benign_nodules
          = initSamplerState.stats.benign_nodules
      ∧ (stepNodule wSizes wShape wVol initSamplerState wNodInf).stats.malignant_nodules
          = initSamplerState.stats.malignant_nodules) :=
  ⟨by decide,
   c6_nonfinite_centroid_discarded wShape wVol wSizes initSamplerState wNodInf
     (by norm_num [wShape]) (by norm_num [wSizes]) (by decide)⟩

/-- C10: the discard branch guarded by len(nodule_patch.shape) < 3 is
unreachable — slicing a 3-D volume always yields a 3-entry shape, so no input
ever produces the badShape outcome — and a degenerate crop (an empty axis, for
a nodule that passed the malignancy and NaN checks) is discarded through the
caught exception of the central-slice indexing or of the resize instead. -/
theorem c10_shape_guard_unreachable :
    (∀ (shape : ℕ × ℕ × ℕ) (vol : ℕ → ℕ → ℕ → ℚ) (size : ℕ) (nd : List Annot),
      (processNodule shape vol size nd).1 ≠ NoduleOutcome.discarded DiscardReason.badShape)
    ∧ (∀ (shape : ℕ × ℕ × ℕ) (vol : ℕ → ℕ → ℕ → ℚ) (size : ℕ) (nd : List Annot),
        (nodScores nd).isEmpty = false →
        (nodCoords nd).1.isnan = false →
        (nodCoords nd).2.1.isnan = false →
        (nodCoords nd).2.2.isnan = false →
        ((cropIdx shape (nodCoords nd).1.toInt64 (nodCoords nd).2.1.toInt64
            (nodCoords nd).2.2.toInt64 size).1 = []
          ∨ (cropIdx shape (nodCoords nd).1.toInt64 (nodCoords nd).2.1.toInt64
            (nodCoords nd).2.2.toInt64 size).2.1 = []
          ∨ (cropIdx shape (nodCoords nd).1.toInt64 (nodCoords nd).2.1.toInt64
            (nodCoords nd).2.2.toInt64 size).2.2 = []) →
        (processNodule shape vol size nd).1
          = NoduleOutcome.discarded DiscardReason.exc) := by
  constructor
  · intro shape vol size nd
    simp only [processNodule]
    split
    · simp
    · split
      · simp
      · split
        · rename_i hlt
          exact absurd hlt (by simp [cropShape])
        · split
          · simp
          · split <;> simp
  · intro shape vol size nd h1 h2 h3 h4 h5
    rw [processNodule_empty_axis shape vol size nd h1 h2 h3 h4 h5]

/-- Witness for C10 at a concrete nodule whose crop is empty on the x axis. -/
theorem c10_shape_guard_unreachable_witness :
    (cropIdx wShape (nodCoords wNodNeg).1.toInt64 (nodCoords wNodNeg).2.1.toInt64
        (nodCoords wNodNeg).2.2.toInt64 10).1 = []
    ∧ (processNodule wShape wVol 10 wNodNeg).1
        = NoduleOutcome.discarded DiscardReason.exc := by
  have hc : nodCoords wNodNeg = (FVal.fin (-100), FVal.fin 4, FVal.fin 4) := by
    simp [wNodNeg, nodCoords, fmean, FVal.add, FVal.divNat]
  have h1 : FVal.toInt64 (FVal.fin (-100)) = -100 := by
    show roundHalfEven (-100 : ℚ) = -100
    rw [show ((-100 : ℚ)) = ((-100 : ℤ) : ℚ) by norm_num]
    exact roundHalfEven_intCast (-100)
  have h4 : FVal.toInt64 (FVal.fin 4) = 4 := by
    show roundHalfEven (4 : ℚ) = 4
    rw [show ((4 : ℚ)) = ((4 : ℤ) : ℚ) by norm_num]
    exact roundHalfEven_intCast 4
  have hemp : (cropIdx wShape (nodCoords wNodNeg).1.toInt64 (nodCoords wNodNeg).2.1.toInt64
      (nodCoords wNodNeg).2.2.toInt64 10).1 = [] := by
    rw [hc]
    simp only []
    rw [h1, h4]
    decide
  exact ⟨hemp, c10_shape_guard_unreachable.2 wShape wVol 10 wNodNeg
    (by decide) (by decide) (by decide) (by decide) (Or.inl hemp)⟩

theorem sliceRange_inside (len : ℕ) (x s2 : ℤ) (h1 : 0 < s2) (h2 : s2 ≤ 24)
    (h3 : 24 ≤ x) (h4 : x + 24 ≤ (len : ℤ)) (h5 : (len : ℤ) ≤ 2 ^ 62) :
    0 < (sliceRange len (max 0 (wrap64 (x - s2)))
      (min (len : ℤ) (wrap64 (x + s2)))).length := by
  have hw1 : wrap64 (x - s2) = x - s2 := wrap64_id _ (by omega) (by omega)
  have hw2 : wrap64 (x + s2) = x + s2 := wrap64_id _ (by omega) (by omega)
  have ha : max 0 (wrap64 (x - s2)) = x - s2 := by rw [hw1]; omega
  have hb : min (len : ℤ) (wrap64 (x + s2)) = x + s2 := by rw [hw2]; omega
  simp only [sliceRange, ha, hb]
  have hpa : pyBound len (x - s2) = x - s2 := by
    unfold pyBound
    rw [if_neg (by omega)]
    omega
  have hpb : pyBound len (x + s2) = x + s2 := by
    unfold pyBound
    rw [if_neg (by omega)]
    omega
  rw [hpa, hpb]
  simp only [List.length_map, List.length_range]
  omega

theorem resizeModel_ok (xs ys : List ℕ) (g : ℕ → ℕ → ℚ)
    (hx : 0 < xs.length) (hy : 0 < ys.length) :
    ∃ img, resizeModel (xs.map (fun i => ys.map (fun j => g i j))) = Except.ok img := by
  obtain ⟨a, t, rfl⟩ := List.exists_cons_of_ne_nil (List.length_pos.mp hx)
  unfold resizeModel
  rw [if_neg (by
    push_neg
    constructor
    · simp
    · simp only [List.map_cons, List.headD_cons, List.length_map]
      omega)]
  exact ⟨_, rfl⟩

theorem processNodule_good (shape : ℕ × ℕ × ℕ) (vol : ℕ → ℕ → ℕ → ℚ)
    (size : ℕ) (nd : List Annot) (qx qy qz : ℚ)
    (hsc : (nodScores nd).isEmpty = false)
    (hcoords : nodCoords nd = (FVal.fin qx, FVal.fin qy, FVal.fin qz))
    (hsize : 10 ≤ size ∧ size < 50)
    (hx : 24 ≤ roundHalfEven qx ∧ roundHalfEven qx + 24 ≤ (shape.1 : ℤ))
    (hy : 24 ≤ roundHalfEven qy ∧ roundHalfEven qy + 24 ≤ (shape.2.1 : ℤ))
    (hz : 24 ≤ roundHalfEven qz ∧ roundHalfEven qz + 24 ≤ (shape.2.2 : ℤ))
    (hsh : (shape.1 : ℤ) ≤ 2 ^ 62 ∧ (shape.2.1 : ℤ) ≤ 2 ^ 62
      ∧ (shape.2.2 : ℤ) ≤ 2 ^ 62) :
    ∃ img, processNodule shape vol size nd
      = (NoduleOutcome.kept img (if 3 ≤ listMean (nodScores nd) then 1 else 0), true) := by
  have hs2a : 5 ≤ size / 2 := by omega
  have hs2b : size / 2 ≤ 24 := by omega
  have h1 : (0 : ℤ) < ((size / 2 : ℕ) : ℤ) := by exact_mod_cast Nat.lt_of_lt_of_le (by norm_num) hs2a
  have h2 : ((size / 2 : ℕ) : ℤ) ≤ 24 := by exact_mod_cast hs2b
  have hxs := sliceRange_inside shape.1 (roundHalfEven qx) _ h1 h2 hx.1 hx.2 hsh.1
  have hys := sliceRange_inside shape.2.1 (roundHalfEven qy) _ h1 h2 hy.1 hy.2 hsh.2.1
  have hzs := sliceRange_inside shape.2.2 (roundHalfEven qz) _ h1 h2 hz.1 hz.2 hsh.2.2
  simp only [processNodule]
  rw [hcoords]
  rw [if_neg (by simp [hsc])]
  rw [if_neg (by simp [FVal.isnan])]
  simp only [FVal.toInt64, cropShape, cropIdx]
  rw [if_neg (by simp)]
  set xs := sliceRange shape.1 (max 0 (wrap64 (roundHalfEven qx - ((size / 2 : ℕ) : ℤ))))
    (min (shape.1 : ℤ) (wrap64 (roundHalfEven qx + ((size / 2 : ℕ) : ℤ)))) with hxsdef
  set ys := sliceRange shape.2.1 (max 0 (wrap64 (roundHalfEven qy - ((size / 2 : ℕ) : ℤ))))
    (min (shape.2.1 : ℤ) (wrap64 (roundHalfEven qy + ((size / 2 : ℕ) : ℤ)))) with hysdef
  set zs := sliceRange shape.2.2 (max 0 (wrap64 (roundHalfEven qz - ((size / 2 : ℕ) : ℤ))))
    (min (shape.2.2 : ℤ) (wrap64 (roundHalfEven qz + ((size / 2 : ℕ) : ℤ)))) with hzsdef
  have hzlt : zs.length / 2 < zs.length := Nat.div_lt_self hzs (by norm_num)
  obtain ⟨k, hk⟩ : ∃ k, zs.get? (zs.length / 2) = some k :=
    ⟨zs.get ⟨zs.length / 2, hzlt⟩, List.get?_eq_get hzlt⟩
  have hcs : centralSlice vol xs ys zs
      = Except.ok (xs.map (fun i => ys.map (fun j => vol i j k))) := by
    unfold centralSlice
    rw [hk]
  obtain ⟨img, hrs⟩ := resizeModel_ok xs ys (fun i j => vol i j k) hxs hys
  refine ⟨stdNormalize img, ?_⟩
  simp only [hcs, hrs]

theorem stepScan_good (sizes : ℕ → ℕ) (st : SamplerState) (s : Scan) (l : ℕ)
    (hg : GoodScan s l)
    (hsz : 10 ≤ sizes st.pos ∧ sizes st.pos < 50)
    (hmem : st.processed_scan_ids = []) :
    ∃ img, stepScan sizes st s =
      { images := st.images ++ [img],
        labels := st.labels ++ [l],
        processed_scan_ids := [],
        stats := { total_scans := st.stats.total_scans + 1,
                   total_nodules := st.stats.total_nodules + 1,
                   benign_nodules := st.stats.benign_nodules + (if l = 0 then 1 else 0),
                   malignant_nodules :=
                     st.stats.malignant_nodules + (if l = 1 then 1 else 0),
                   discarded_nodules := st.stats.discarded_nodules },
        pos := st.pos + 1 } := by
  obtain ⟨nd, hnds, hsc, hlab, ⟨qx, qy, qz, hcoords, hx1, hx2, hy1, hy2, hz1, hz2⟩,
    hsh1, hsh2, hsh3⟩ := hg
  obtain ⟨img, hpr⟩ := processNodule_good s.shape s.vol (sizes st.pos) nd qx qy qz hsc
    hcoords hsz ⟨hx1, hx2⟩ ⟨hy1, hy2⟩ ⟨hz1, hz2⟩ ⟨hsh1, hsh2, hsh3⟩
  rw [hlab] at hpr
  refine ⟨img, ?_⟩
  unfold stepScan
  rw [if_neg (by rw [hmem]; simp), hnds, List.foldl_cons, List.foldl_nil]
  simp [stepNodule, hpr, hmem]

theorem foldScans_good (sizes : ℕ → ℕ) (pairs : List (Scan × ℕ)) :
    ∀ st : SamplerState, st.processed_scan_ids = [] →
      (∀ k, 10 ≤ sizes k ∧ sizes k < 50) →
      (∀ p ∈ pairs, GoodScan p.1 p.2) →
      ∃ imgs : List (List (List ℚ)),
        (pairs.map Prod.fst).foldl (stepScan sizes) st =
          { images := st.images ++ imgs,
            labels := st.labels ++ pairs.map Prod.snd,
            processed_scan_ids := [],
            stats := { total_scans := st.stats.total_scans + pairs.length,
                       total_nodules := st.stats.total_nodules + pairs.length,
                       benign_nodules :=
                         st.stats.benign_nodules + (pairs.map Prod.snd).count 0,
                       malignant_nodules :=
                         st.stats.malignant_nodules + (pairs.map Prod.snd).count 1,
                       discarded_nodules := st.stats.discarded_nodules },
            pos := st.pos + pairs.length }
        ∧ imgs.length = pairs.length := by
  induction pairs with
  | nil =>
    intro st hmem _ _
    refine ⟨[], ?_, rfl⟩
    obtain ⟨im, lb, pr, ⟨a, b, c, d, e⟩, pos⟩ := st
    simp only at hmem
    subst hmem
    simp
  | cons p rest ih =>
    intro st hmem hsizes hgood
    simp only [List.map_cons, List.foldl_cons]
    obtain ⟨img, e⟩ := stepScan_good sizes st p.1 p.2
      (hgood p (List.mem_cons_self p rest)) (hsizes _) hmem
    obtain ⟨imgs, erest, hlen⟩ := ih (stepScan sizes st p.1) (by rw [e]) hsizes
      (fun q hq => hgood q (List.mem_cons_of_mem p hq))
    rw [erest, e]
    refine ⟨img :: imgs, ?_, by simp [hlen]⟩
    simp only [SamplerState.mk.injEq, SampleStats.mk.injEq, List.count_cons,
      List.append_assoc, List.singleton_append, List.length_cons, beq_iff_eq]
    and_intros <;> first | trivial | omega

/-- C7: four distinct scans, each holding exactly one well-formed nodule
(finite centroid rounding well inside the volume, at least one malignancy
rating, every crop size in [10,50) staying inside the volume), the first two
with mean malignancy below 3 and the last two at or above 3, produce exactly
4 aligned image/label pairs with labels [0,0,1,1], benign count 2, malignant
count 2 and zero discards. -/
theorem c7_four_good_scans (s1 s2 s3 s4 : Scan) (sizes : ℕ → ℕ)
    (hsizes : ∀ k, 10 ≤ sizes k ∧ sizes k < 50)
    (_hid : s1.id ≠ s2.id ∧ s1.id ≠ s3.id ∧ s1.id ≠ s4.id ∧ s2.id ≠ s3.id
      ∧ s2.id ≠ s4.id ∧ s3.id ≠ s4.id)
    (h1 : GoodScan s1 0) (h2 : GoodScan s2 0) (h3 : GoodScan s3 1)
    (h4 : GoodScan s4 1) :
    (load_nodule_data 400 [s1, s2, s3, s4] sizes).images.length = 4
    ∧ (load_nodule_data 400 [s1, s2, s3, s4] sizes).labels = [0, 0, 1, 1]
    ∧ (load_nodule_data 400 [s1, s2, s3, s4] sizes).stats.benign_nodules = 2
    ∧ (load_nodule_data 400 [s1, s2, s3, s4] sizes).stats.malignant_nodules = 2
    ∧ (load_nodule_data 400 [s1, s2, s3, s4] sizes).stats.discarded_nodules = 0 := by
  obtain ⟨imgs, e, hlen⟩ := foldScans_good sizes [(s1, 0), (s2, 0), (s3, 1), (s4, 1)]
    initSamplerState rfl hsizes
    (by
      intro p hp
      simp only [List.mem_cons, List.not_mem_nil, or_false] at hp
      rcases hp with rfl | rfl | rfl | rfl
      exacts [h1, h2, h3, h4])
  unfold load_nodule_data
  rw [List.take_of_length_le (by simp)]
  rw [show [s1, s2, s3, s4] = ([(s1, 0), (s2, 0), (s3, 1), (s4, 1)].map Prod.fst)
    from by simp]
  rw [e]
  simp [initSamplerState, hlen]

theorem wScan_good (i : ℕ) (m : ℚ) (l : ℕ)
    (hl : (if (3 : ℚ) ≤ m then 1 else 0) = l) : GoodScan (wScan i m) l := by
  have hm : listMean (nodScores (wGoodNod m)) = m := by
    simp [wGoodNod, nodScores, listMean]
  have h32 : roundHalfEven (32 : ℚ) = 32 := by
    rw [show ((32 : ℚ)) = ((32 : ℤ) : ℚ) by norm_num]
    exact roundHalfEven_intCast 32
  refine ⟨wGoodNod m, rfl, rfl, by rw [hm]; exact hl,
    ⟨32, 32, 32, by simp [wGoodNod, nodCoords, fmean, FVal.add, FVal.divNat],
      ?_, ?_, ?_, ?_, ?_, ?_⟩, ?_, ?_, ?_⟩ <;>
    simp [wScan, h32]

/-- Witness for C7 at four concrete scans: malignancy means 2, 1, 4, 5 with
centroids at the center of a 64³ volume and a constant size stream of 10. -/
theorem c7_four_good_scans_witness :
    (GoodScan (wScan 1 2) 0 ∧ GoodScan (wScan 2 1) 0 ∧ GoodScan (wScan 3 4) 1
      ∧ GoodScan (wScan 4 5) 1)
    ∧ ((load_nodule_data 400 [wScan 1 2, wScan 2 1, wScan 3 4, wScan 4 5]
          wSizes).images.length = 4
      ∧ (load_nodule_data 400 [wScan 1 2, wScan 2 1, wScan 3 4, wScan 4 5]
          wSizes).labels = [0, 0, 1, 1]
      ∧ (load_nodule_data 400 [wScan 1 2, wScan 2 1, wScan 3 4, wScan 4 5]
          wSizes).stats.benign_nodules = 2
      ∧ (load_nodule_data 400 [wScan 1 2, wScan 2 1, wScan 3 4, wScan 4 5]
          wSizes).stats.malignant_nodules = 2
      ∧ (load_nodule_data 400 [wScan 1 2, wScan 2 1, wScan 3 4, wScan 4 5]
          wSizes).stats.discarded_nodules = 0) := by
  have g1 : GoodScan (wScan 1 2) 0 := wScan_good 1 2 0 (by norm_num)
  have g2 : GoodScan (wScan 2 1) 0 := wScan_good 2 1 0 (by norm_num)
  have g3 : GoodScan (wScan 3 4) 1 := wScan_good 3 4 1 (by norm_num)
  have g4 : GoodScan (wScan 4 5) 1 := wScan_good 4 5 1 (by norm_num)
  refine ⟨⟨g1, g2, g3, g4⟩, ?_⟩
  exact c7_four_good_scans (wScan 1 2) (wScan 2 1) (wScan 3 4) (wScan 4 5) wSizes
    (fun k => ⟨by norm_num [wSizes], by norm_num [wSizes]⟩)
    (by refine ⟨?_, ?_, ?_, ?_, ?_, ?_⟩ <;> decide)
    g1 g2 g3 g4

/-- C9: in any non-train mode, indexing the dataset is a deterministic
function of the stored patch — the eval pipeline (per-patch min-max rescale
to uint8, resize to 32×32, fixed mean/std normalization) reads no random
draws, so two indexings under arbitrary, even different, ambient randomness
yield bit-identical transformed tensors and labels. -/
theorem c9_eval_mode_deterministic (mode : String) (hm : mode ≠ "train")
    (images : List (List (List ℚ))) (labels : List ℕ) (idx : ℕ)
    (u1 u2 : ℕ → ℚ) (p1 p2 : ℕ) :
    getItem mode images labels idx u1 p1 = getItem mode images labels idx u2 p2 := by
  simp only [getItem]
  rw [if_neg hm, if_neg hm]

/-- Witness for C9 in mode "val" (the mode main() uses for the validation
dataset) on a concrete patch, with two different random streams and
positions. -/
theorem c9_eval_mode_deterministic_witness :
    ("val" ≠ "train")
    ∧ getItem "val" [[[0, 1], [2, 3]]] [1] 0 (fun _ => 0) 0
        = getItem "val" [[[0, 1], [2, 3]]] [1] 0 (fun k => k + 7) 5 :=
  ⟨by decide,
   c9_eval_mode_deterministic "val" (by decide) [[[0, 1], [2, 3]]] [1] 0
     (fun _ => 0) (fun k => k + 7) 0 5⟩
